import Mathlib

/-!
Verification of the resilient HTTP transport layer of `poly-go-clob-client`
(packages `internal/transport`, `internal/redaction`, `types`).

Go strings and byte slices are modelled as `List Nat` (byte values); ASCII
literals are injected with `asciiBytes`.  `strings.TrimSpace` and
`strings.ToLower` are modelled on the ASCII range, which is exact for every
ASCII input.  64-bit machine integers (`int`, `int64`, `time.Duration` in
nanoseconds) are modelled as `Int`, with wrapping made explicit (`wrap64`)
at the one place the code multiplies (`delay *= 2` in `sleepBackoff`).
-/

namespace PolyClob

/-- Bytes of an ASCII string literal (code points; exact for ASCII input). -/
def asciiBytes (s : String) : List Nat :=
  s.data.map (fun c => c.toNat)

/-! Section: the internal/redaction package. -/

namespace Redaction

/-- ASCII whitespace bytes; models the byte set trimmed by
`strings.TrimSpace` on ASCII input (space, TAB, LF, VT, FF, CR). -/
def isSpaceByte (c : Nat) : Bool :=
  c = 32 || c = 9 || c = 10 || c = 11 || c = 12 || c = 13

/-- Go `strings.TrimSpace` on the ASCII range: drop leading and trailing
whitespace bytes. -/
def trimSpace (s : List Nat) : List Nat :=
  ((s.dropWhile isSpaceByte).reverse.dropWhile isSpaceByte).reverse

/-- Go `DefaultRedaction = "***"` from redaction.go, as bytes. -/
def DefaultRedaction : List Nat := asciiBytes "***"

/-- Go `Redact` from redaction.go: trim; empty stays empty; length ≤ 8 is fully
redacted; otherwise keep the first 3 and last 3 bytes around the marker
(`s[:3] + "***" + s[len(s)-3:]`). -/
def Redact (s : List Nat) : List Nat :=
  let t := trimSpace s
  if t = [] then []
  else if t.length ≤ 8 then DefaultRedaction
  else t.take 3 ++ DefaultRedaction ++ t.drop (t.length - 3)

/-- The redaction rule as the specification words it: trim whitespace;
empty goes to empty; trimmed length at most 8 goes to the fixed marker;
otherwise first 3 characters, the marker, then the *last 3 characters*
(phrased here via `reverse`/`take`, to be compared with the code's
`s[len(s)-3:]` slice). -/
def RedactSpec (s : List Nat) : List Nat :=
  let t := trimSpace s
  if t = [] then []
  else if t.length ≤ 8 then DefaultRedaction
  else t.take 3 ++ DefaultRedaction ++ (t.reverse.take 3).reverse

/-- Go `strings.ToLower` on the ASCII range: map A–Z to a–z. -/
def toLowerBytes (s : List Nat) : List Nat :=
  s.map (fun c => if 65 ≤ c ∧ c ≤ 90 then c + 32 else c)

/-- Go `strings.Contains` on byte sequences. -/
def containsSeq : List Nat → List Nat → Bool
  | hay, needle =>
    if needle.isPrefixOf hay then true
    else
      match hay with
      | [] => false
      | _ :: t => containsSeq t needle

/-- Go `net/textproto`'s valid header-field byte: digits, letters, and the
token punctuation. -/
def validHeaderFieldByte (c : Nat) : Bool :=
  (decide (48 ≤ c) && decide (c ≤ 57)) ||
  (decide (65 ≤ c) && decide (c ≤ 90)) ||
  (decide (97 ≤ c) && decide (c ≤ 122)) ||
  [33, 35, 36, 37, 38, 39, 42, 43, 45, 46, 94, 95, 96, 124, 126].contains c

/-- The case-normalisation pass of `CanonicalMIMEHeaderKey`: uppercase a
letter at the start and after each hyphen, lowercase the rest. -/
def canonicalizeBytes : Bool → List Nat → List Nat
  | _, [] => []
  | upper, c :: rest =>
    let c' :=
      if upper = true ∧ 97 ≤ c ∧ c ≤ 122 then c - 32
      else if upper = false ∧ 65 ≤ c ∧ c ≤ 90 then c + 32
      else c
    c' :: canonicalizeBytes (c' == 45) rest

/-- Go `http.CanonicalHeaderKey`: keys containing an invalid byte pass through
unchanged, the rest are case-normalised. -/
def canonicalHeaderKey (k : List Nat) : List Nat :=
  if k.all validHeaderFieldByte then canonicalizeBytes true k else k

/-- The header names `isSensitiveHeaderName` lists explicitly. -/
def sensitiveHeaderNames : List (List Nat) :=
  [asciiBytes "Authorization", asciiBytes "Proxy-Authorization",
   asciiBytes "Cookie", asciiBytes "Set-Cookie", asciiBytes "X-Api-Key",
   asciiBytes "Api-Key", asciiBytes "X-Api-Token", asciiBytes "X-Auth-Token",
   asciiBytes "X-Access-Token", asciiBytes "Poly-Api-Key",
   asciiBytes "Poly-Api-Secret", asciiBytes "Poly-Api-Passphrase"]

/-- Go `isSensitiveHeaderName`: the explicit switch cases, else the substring
heuristic over the lowercased name. -/
def isSensitiveHeaderName (ck : List Nat) : Bool :=
  if sensitiveHeaderNames.contains ck then true
  else
    let lk := toLowerBytes ck
    containsSeq lk (asciiBytes "secret") ||
    containsSeq lk (asciiBytes "token") ||
    containsSeq lk (asciiBytes "pass") ||
    containsSeq lk (asciiBytes "key") ||
    containsSeq lk (asciiBytes "session")

/-- Go `redactHeaderValueHeuristic`: trim; empty stays empty; a value starting
with "bearer " (case-insensitive) becomes `Bearer ***`; a value of length
at least 16 is partially redacted; shorter values pass through. -/
def redactHeaderValueHeuristic (v : List Nat) : List Nat :=
  let t := trimSpace v
  if t = [] then []
  else if (asciiBytes "bearer ").isPrefixOf (toLowerBytes t) then
    asciiBytes "Bearer " ++ DefaultRedaction
  else if 16 ≤ t.length then Redact t
  else t

/-- A Go `[]string` header-value slice. -/
abbrev ValSlice := List (List Nat)

/-- An allocation-order heap of value slices, making slice identity and
freshness explicit: a reference is an index into `blocks`, and `alloc`
(Go's `make([]string, …)`) always hands out a reference no earlier slice
shares. -/
structure Heap where
  blocks : List ValSlice

/-- Allocate a fresh value slice, returning its reference. -/
def Heap.alloc (h : Heap) (v : ValSlice) : Heap × Nat :=
  ({ blocks := h.blocks ++ [v] }, h.blocks.length)

/-- Read the value slice a reference designates. -/
def Heap.read (h : Heap) (r : Nat) : ValSlice :=
  h.blocks.getD r []

/-- An `http.Header`: keys paired with references to their value slices. -/
abbrev Header := List (List Nat × Nat)

/-- The value-slice contents `RedactHeaders` builds for one entry: under a
sensitive name every value becomes the marker, otherwise each value goes
through the heuristic (both Go branches fill the freshly made `copied`
slice element by element). -/
def redactedValues (ck : List Nat) (vv : ValSlice) : ValSlice :=
  if isSensitiveHeaderName ck then vv.map (fun _ => DefaultRedaction)
  else vv.map redactHeaderValueHeuristic

/-- Go `RedactHeaders`: for each entry of the input, canonicalise the key,
read the input's value slice, allocate a fresh slice (`copied := make(…)`)
holding the redacted values and bind it in the output under the canonical
key.  The input's entries and their slices are only read, never written. -/
def RedactHeaders : Header → Heap → Header × Heap
  | [], heap => ([], heap)
  | (k, r) :: rest, heap =>
    let ck := canonicalHeaderKey k
    let vv := heap.read r
    let (heap1, r') := heap.alloc (redactedValues ck vv)
    let (out, heap2) := RedactHeaders rest heap1
    ((ck, r') :: out, heap2)

end Redaction

/-! Section: the types package sentinel classification (`Classify`, `APIError`). -/

namespace Types

/-- The five sentinel errors declared in the `types` package. -/
inductive Sentinel
  | errRateLimited
  | errUnauthorized
  | errBadRequest
  | errServer
  | errUnknown
  deriving DecidableEq, Repr

/-- A decoded JSON value as far as `Classify` inspects it: either a JSON
string or anything else (the code only performs `.(string)` assertions). -/
inductive JSONVal
  | jstr (s : String)
  | jother
  deriving DecidableEq, Repr

/-- The decoded top-level JSON object produced by `json.Unmarshal(body,
&parsed)`: a finite map from field name to value, modelled as an
association list. -/
abbrev ParsedBody := List (String × JSONVal)

/-- Looking a key up in the decoded map and asserting `.(string)`:
`parsed[k].(string)` succeeds exactly when the key is present and holds a
JSON string. -/
def parsedString (parsed : ParsedBody) (k : String) : Option String :=
  match parsed.find? (fun kv => kv.1 = k) with
  | some (_, JSONVal.jstr s) => some s
  | _ => none

/-- The `message` extraction of `Classify`: take `parsed["message"]` when it
is a string, and fall back to `parsed["error"]` when the result is empty. -/
def classifyMessage (parsed : ParsedBody) : String :=
  let message := (parsedString parsed "message").getD ""
  if message = "" then (parsedString parsed "error").getD "" else message

/-- The `code` extraction of `Classify`: `parsed["code"]` when it is a
string, empty otherwise. -/
def classifyCode (parsed : ParsedBody) : String :=
  (parsedString parsed "code").getD ""

/-- Go `APIError` from the `types` package (the lighter-weight error variant).
The unexported `wrapped` field holds the sentinel returned by `Unwrap`. -/
structure APIError where
  Status : Int
  Code : String
  Message : String
  RawBody : List Nat
  wrapped : Sentinel
  deriving DecidableEq, Repr

/-- Go `Classify(status, body)` from the `types` package.  The decoded JSON
object is passed explicitly as `parsed` because `json.Unmarshal` is a
standard-library effect; every other step is the code's:
2xx returns nil, otherwise an `APIError` is built around exactly one
sentinel chosen by the status switch. -/
def Classify (status : Int) (body : List Nat) (parsed : ParsedBody) :
    Option APIError :=
  if 200 ≤ status ∧ status < 300 then none
  else
    let sentinel :=
      if status = 429 then Sentinel.errRateLimited
      else if status = 401 ∨ status = 403 then Sentinel.errUnauthorized
      else if 400 ≤ status ∧ status < 500 then Sentinel.errBadRequest
      else if 500 ≤ status then Sentinel.errServer
      else Sentinel.errUnknown
    some { Status := status
           Code := classifyCode parsed
           Message := classifyMessage parsed
           RawBody := body
           wrapped := sentinel }

/-- Go `MaxRawBodyBytes = 4 << 10` from the `types` package. -/
def MaxRawBodyBytes : Nat := 4096

end Types

/-! Section: the internal/transport package retry loop, body replay, backoff. -/

namespace Transport

/-- Go `RetryPolicy` from retry.go (delays in nanoseconds, `time.Duration`). -/
structure RetryPolicy where
  MaxRetries : Int
  BaseDelay : Int
  MaxDelay : Int
  deriving DecidableEq, Repr

/-- Go `DefaultRetryPolicy()`: 2 retries, 150ms base, 2s max. -/
def DefaultRetryPolicy : RetryPolicy :=
  { MaxRetries := 2, BaseDelay := 150000000, MaxDelay := 2000000000 }

/-- Go `isIdempotent` from retry.go: the switch over
GET/HEAD/OPTIONS/PUT/DELETE. -/
def isIdempotent (method : String) : Bool :=
  method == "GET" || method == "HEAD" || method == "OPTIONS" ||
  method == "PUT" || method == "DELETE"

/-- Go `shouldRetryStatus` from retry.go: 429 or any 5xx. -/
def shouldRetryStatus (status : Int) : Bool :=
  status == 429 || (decide (500 ≤ status) && decide (status ≤ 599))

/-- Go `bodyPreview`: truncate a body to `MaxRawBodyBytes` for error
messages. -/
def bodyPreview (b : List Nat) : List Nat :=
  if Types.MaxRawBodyBytes < b.length then b.take Types.MaxRawBodyBytes else b

/-- The fields of an `*http.Request` the retry loop touches.  Body readers
are in-memory byte sequences (as built by `DoJSON` via `bytes.NewReader`),
so `io.ReadAll(req.Body)` and `req.GetBody()` cannot fail in the model:
`body` is the current body reader's remaining content, `getBody` the replay
source installed by `ensureReplayableBody`. -/
structure Request where
  method : String
  urlPath : String
  body : Option (List Nat)
  getBody : Option (List Nat)
  deriving DecidableEq, Repr

/-- Go `ensureReplayableBody`: nothing to do without a body or when `GetBody`
is already set; otherwise buffer the body bytes once, install them as the
replay source, and reset the body for the first attempt. -/
def ensureReplayableBody (req : Request) : Request :=
  match req.body with
  | none => req
  | some b =>
    match req.getBody with
    | some _ => req
    | none => { req with getBody := some b, body := some b }

/-- Go `resetBody`: when a replay source exists, replace the body reader with
a fresh copy of the buffered bytes. -/
def resetBody (req : Request) : Request :=
  match req.getBody with
  | none => req
  | some b => { req with body := some b }

/-- What one call of `Transport.Do` produces: a transport-level error, or a
response carrying a status and the full byte stream the server sends. -/
inductive DoOutcome
  | doErr
  | doResp (status : Int) (raw : List Nat)
  deriving DecidableEq, Repr

/-- Go `Transport.Do` wraps the response body in
`io.LimitReader(resp.Body, MaxBodyBytes+1)`; reading the wrapped reader to
the end therefore yields at most `MaxBodyBytes + 1` bytes of the server's
stream. -/
def wrappedBodyRead (maxBody : Int) (raw : List Nat) : List Nat :=
  raw.take (maxBody + 1).toNat

/-- Error kinds from the `types` package (`Kind`). -/
inductive ErrKind
  | status
  | validation
  | synchronization
  | internal
  | websocket
  | geoblock
  deriving DecidableEq, Repr

/-- The error sources the retry loop can wrap: a `Transport.Do` failure,
the distinguished `types.ErrBodyTooLarge`, or a structured `types.Status`
(status code, method, path, message preview). -/
inductive ErrSrc
  | srcDo
  | srcBodyTooLarge
  | srcStatus (code : Int) (method : String) (path : String)
      (message : List Nat)
  deriving DecidableEq, Repr

/-- Go `types.Error`: a kind paired with its source (`types.WithSource`). -/
structure GoErr where
  kind : ErrKind
  src : ErrSrc
  deriving DecidableEq, Repr

/-- Go `types.WithSource`. -/
def WithSource (k : ErrKind) (s : ErrSrc) : GoErr := { kind := k, src := s }

/-- Go `types.StatusErr`: a `types.Status` wrapped with `KindStatus`. -/
def StatusErr (code : Int) (method path : String) (message : List Nat) :
    GoErr :=
  WithSource ErrKind.status (ErrSrc.srcStatus code method path message)

/-- Result of `doJSONWithRetry`: the body bytes on success, a typed error
otherwise.  `outOfFuel` is unreachable for the fuel `doJSONWithRetry`
supplies (see there) and is never produced in any theorem below. -/
inductive RetryOutcome
  | ok (body : List Nat)
  | err (e : GoErr)
  | outOfFuel
  deriving DecidableEq, Repr

/-- The attempt loop of `doJSONWithRetry`.  `attempts` is the Go counter
(0 on the first attempt, incremented before each retry), and `server n`
is what `Transport.Do` produces on the call with `attempts = n`.  Each
iteration: reset the body, call `Do`; on a transport error, retry only for
an idempotent method with attempts remaining, else wrap as Internal; on a
response, read the (limit-wrapped) body, fail with `ErrBodyTooLarge` when
it exceeds a positive cap, return the bytes on 2xx, and otherwise build a
Status error which is retried only for idempotent method + attempts
remaining + retryable status.  Alongside the outcome, the list of body
payloads handed to `Do` on each attempt is returned (so a run's attempt
count is that list's length).  `fuel` only bounds the recursion: the loop
retries just while `attempts < MaxRetries`, so `MaxRetries.toNat + 1`
iterations always suffice and the `outOfFuel` branch is dead code for the
fuel supplied by `doJSONWithRetry`. -/
def doJSONAux (p : RetryPolicy) (maxBody : Int) (server : Nat → DoOutcome) :
    Nat → Nat → Request → RetryOutcome × List (Option (List Nat))
  | 0, _, _ => (RetryOutcome.outOfFuel, [])
  | fuel + 1, attempts, req =>
    let req' := resetBody req
    let sent := req'.body
    match server attempts with
    | DoOutcome.doErr =>
      if isIdempotent req'.method = false ∨ p.MaxRetries ≤ (attempts : Int)
      then (RetryOutcome.err (WithSource ErrKind.internal ErrSrc.srcDo),
            [sent])
      else
        let r := doJSONAux p maxBody server fuel (attempts + 1) req'
        (r.1, sent :: r.2)
    | DoOutcome.doResp status raw =>
      let b := wrappedBodyRead maxBody raw
      if 0 < maxBody ∧ maxBody < (b.length : Int) then
        (RetryOutcome.err
          (WithSource ErrKind.internal ErrSrc.srcBodyTooLarge), [sent])
      else if 200 ≤ status ∧ status ≤ 299 then
        (RetryOutcome.ok b, [sent])
      else
        let statusError :=
          StatusErr status req'.method req'.urlPath (bodyPreview b)
        if isIdempotent req'.method = false ∨ p.MaxRetries ≤ (attempts : Int)
            ∨ shouldRetryStatus status = false then
          (RetryOutcome.err statusError, [sent])
        else
          let r := doJSONAux p maxBody server fuel (attempts + 1) req'
          (r.1, sent :: r.2)

/-- Go `doJSONWithRetry`: make the body replayable, then run the attempt loop
starting at `attempts = 0`.  The fuel `MaxRetries.toNat + 1` covers every
possible iteration (`attempts` runs through at most
`0, 1, …, MaxRetries.toNat`). -/
def doJSONWithRetry (p : RetryPolicy) (maxBody : Int)
    (server : Nat → DoOutcome) (req : Request) :
    RetryOutcome × List (Option (List Nat)) :=
  doJSONAux p maxBody server (p.MaxRetries.toNat + 1) 0
    (ensureReplayableBody req)

/-- Two's-complement wrapping of a 64-bit signed integer, making Go's
`int64` overflow semantics explicit. -/
def wrap64 (x : Int) : Int :=
  (x + 2 ^ 63) % 2 ^ 64 - 2 ^ 63

/-- The doubling loop of `sleepBackoff` (`for i := 1; i < attempt; i++`),
run for `iters = attempt - 1` rounds: before each doubling, when a positive
`MaxDelay` is at most twice the current delay (`delay >= p.MaxDelay/2`),
clamp to `MaxDelay` and stop; otherwise double (a 64-bit multiply). -/
def backoffLoop (maxDelay : Int) : Int → Nat → Int
  | delay, 0 => delay
  | delay, iters + 1 =>
    if 0 < maxDelay ∧ maxDelay / 2 ≤ delay then maxDelay
    else backoffLoop maxDelay (wrap64 (2 * delay)) iters

/-- The delay `sleepBackoff` waits before retry number `attempt`:
non-positive attempts count as 1; a non-positive `BaseDelay` falls back to
50ms; the starting delay is clamped to a positive `MaxDelay`; then the
doubling loop runs, and the result is clamped to `MaxDelay` once more. -/
def sleepBackoffDelay (p : RetryPolicy) (attempt : Int) : Int :=
  let att := if attempt ≤ 0 then 1 else attempt
  let d0 := if p.BaseDelay ≤ 0 then 50000000 else p.BaseDelay
  let d1 := if 0 < p.MaxDelay ∧ p.MaxDelay < d0 then p.MaxDelay else d0
  let d2 := backoffLoop p.MaxDelay d1 (att - 1).toNat
  if 0 < p.MaxDelay ∧ p.MaxDelay < d2 then p.MaxDelay else d2

end Transport

/-! Section: theorems. -/

namespace Redaction

/-- Trimming never lengthens a byte string. -/
theorem trimSpace_length_le (s : List Nat) :
    (trimSpace s).length ≤ s.length := by
  unfold trimSpace
  calc (((s.dropWhile isSpaceByte).reverse.dropWhile isSpaceByte).reverse).length
      = ((s.dropWhile isSpaceByte).reverse.dropWhile isSpaceByte).length := by
        rw [List.length_reverse]
    _ ≤ (s.dropWhile isSpaceByte).reverse.length :=
        ((List.dropWhile_sublist _).length_le)
    _ = (s.dropWhile isSpaceByte).length := by rw [List.length_reverse]
    _ ≤ s.length := (List.dropWhile_sublist _).length_le

/-- C7: for every byte string, `Redact` first trims whitespace; an empty
trimmed string yields the empty string, a trimmed length of at most 8
yields exactly the marker `***`, and a longer trimmed string yields its
first 3 characters, the marker, then its last 3 characters — i.e. the
code's `s[len(s)-3:]` slice agrees with the specification's "last 3
characters of the trimmed string". -/
theorem redact_matches_spec (s : List Nat) : Redact s = RedactSpec s := by
  have h : ((trimSpace s).reverse.take 3).reverse
      = (trimSpace s).drop ((trimSpace s).length - 3) := by
    rw [← List.rtake_eq_reverse_take_reverse]; rfl
  unfold Redact RedactSpec
  simp only [h]

/-- C8 (counterexample): `Redact` can lengthen its input — the one-byte
string "a" is redacted to the three-byte marker "***". -/
theorem redact_length_cex :
    ¬ ((Redact (asciiBytes "a")).length ≤ (asciiBytes "a").length) := by
  decide

/-- C8 (amended): the length of `Redact s` is at most the larger of the
length of `s` and 3 (the marker's length): a non-empty trimmed input of
fewer than 3 bytes still produces the 3-byte marker, and in every other
case the output is no longer than the input. -/
theorem redact_length_le (s : List Nat) :
    (Redact s).length ≤ max s.length 3 := by
  have ht := trimSpace_length_le s
  unfold Redact
  by_cases h0 : trimSpace s = []
  · simp [h0]
  · rw [if_neg h0]
    by_cases h8 : (trimSpace s).length ≤ 8
    · rw [if_pos h8]; simp [DefaultRedaction, asciiBytes]
    · rw [if_neg h8]
      simp only [List.length_append, List.length_take, List.length_drop]
      have : DefaultRedaction.length = 3 := by decide
      omega

/-- Lemma: `RedactHeaders` only allocates: the final heap extends the initial one,
and every reference in the output was allocated during the call (it is at
or beyond the initial heap's bound). -/
theorem redactHeaders_alloc_only (h : Header) (heap : Heap) :
    (∃ ext, (RedactHeaders h heap).2.blocks = heap.blocks ++ ext) ∧
    (∀ kr ∈ (RedactHeaders h heap).1, heap.blocks.length ≤ kr.2) := by
  induction h generalizing heap with
  | nil => exact ⟨⟨[], by simp [RedactHeaders]⟩, by simp [RedactHeaders]⟩
  | cons kv rest ih =>
    obtain ⟨k, r⟩ := kv
    have step :
        RedactHeaders ((k, r) :: rest) heap =
          ((canonicalHeaderKey k, heap.blocks.length) ::
            (RedactHeaders rest
              ⟨heap.blocks ++
               [redactedValues (canonicalHeaderKey k) (heap.read r)]⟩).1,
           (RedactHeaders rest
              ⟨heap.blocks ++
               [redactedValues (canonicalHeaderKey k) (heap.read r)]⟩).2) :=
      rfl
    set heap1 : Heap :=
      ⟨heap.blocks ++
        [redactedValues (canonicalHeaderKey k) (heap.read r)]⟩ with hheap1
    obtain ⟨⟨ext, hext⟩, hfresh⟩ := ih heap1
    constructor
    · refine ⟨[redactedValues (canonicalHeaderKey k) (heap.read r)] ++ ext, ?_⟩
      rw [step]
      simp only [hext, hheap1, List.append_assoc]
    · intro kr hkr
      rw [step] at hkr
      rw [List.mem_cons] at hkr
      rcases hkr with hkr | hkr
      · simp [hkr]
      · have := hfresh kr hkr
        have hlen : heap1.blocks.length = heap.blocks.length + 1 := by
          simp [hheap1]
        omega

/-- C9: `RedactHeaders` never mutates its input and shares nothing with it:
the initial heap blocks survive unchanged (so the input header still holds
exactly the keys and value slices it held before), every input reference
still reads the same value slice, every output reference is freshly
allocated, and no output entry shares a value slice with any input
entry. -/
theorem redactHeaders_no_mutation (h : Header) (heap : Heap)
    (hvalid : ∀ kr ∈ h, kr.2 < heap.blocks.length) :
    (RedactHeaders h heap).2.blocks.take heap.blocks.length = heap.blocks ∧
    (∀ kr ∈ h, (RedactHeaders h heap).2.read kr.2 = heap.read kr.2) ∧
    (∀ kr ∈ (RedactHeaders h heap).1, heap.blocks.length ≤ kr.2) ∧
    (∀ kr ∈ h, ∀ kr' ∈ (RedactHeaders h heap).1, kr.2 ≠ kr'.2) := by
  obtain ⟨⟨ext, hext⟩, hfresh⟩ := redactHeaders_alloc_only h heap
  refine ⟨?_, ?_, hfresh, ?_⟩
  · rw [hext, List.take_left]
  · intro kr hkr
    have hr := hvalid kr hkr
    unfold Heap.read
    rw [hext]
    rw [List.getD_append _ _ _ _ hr]
  · intro kr hkr kr' hkr'
    have h1 := hvalid kr hkr
    have h2 := hfresh kr' hkr'
    omega

/-- C9 (witness): redacting a one-entry header map holding an
`Authorization` value leaves the input heap block intact, reads the same
slice afterwards, and binds the output to a fresh slice. -/
theorem redactHeaders_no_mutation_witness :
    (RedactHeaders [(asciiBytes "Authorization", 0)]
        ⟨[[asciiBytes "Bearer token123"]]⟩).2.blocks.take
        ([[asciiBytes "Bearer token123"]] : List ValSlice).length =
      [[asciiBytes "Bearer token123"]] ∧
    (∀ kr ∈ [(asciiBytes "Authorization", 0)],
      (RedactHeaders [(asciiBytes "Authorization", 0)]
        ⟨[[asciiBytes "Bearer token123"]]⟩).2.read kr.2 =
      Heap.read ⟨[[asciiBytes "Bearer token123"]]⟩ kr.2) ∧
    (∀ kr ∈ (RedactHeaders [(asciiBytes "Authorization", 0)]
        ⟨[[asciiBytes "Bearer token123"]]⟩).1,
      ([[asciiBytes "Bearer token123"]] : List ValSlice).length ≤ kr.2) ∧
    (∀ kr ∈ [(asciiBytes "Authorization", 0)],
      ∀ kr' ∈ (RedactHeaders [(asciiBytes "Authorization", 0)]
        ⟨[[asciiBytes "Bearer token123"]]⟩).1, kr.2 ≠ kr'.2) :=
  redactHeaders_no_mutation [(asciiBytes "Authorization", 0)]
    ⟨[[asciiBytes "Bearer token123"]]⟩ (by decide)

end Redaction

namespace Types

/-- C6: `Classify` returns no error exactly on 2xx statuses; every other
status yields an `APIError` preserving the status code, the raw body, the
machine code string and the human message extracted from the decoded body,
and wrapping the sentinel the status selects: rate-limited for 429,
unauthorized for 401 and 403, bad-request for the remaining 4xx statuses,
server-error for every status of at least 500. -/
theorem classify_sentinels (status : Int) (body : List Nat)
    (parsed : ParsedBody) :
    (200 ≤ status ∧ status < 300 → Classify status body parsed = none) ∧
    (¬ (200 ≤ status ∧ status < 300) →
      ∃ e, Classify status body parsed = some e ∧
        e.Status = status ∧ e.RawBody = body ∧
        e.Code = classifyCode parsed ∧ e.Message = classifyMessage parsed ∧
        (status = 429 → e.wrapped = Sentinel.errRateLimited) ∧
        (status = 401 ∨ status = 403 → e.wrapped = Sentinel.errUnauthorized) ∧
        (400 ≤ status ∧ status < 500 ∧ status ≠ 429 ∧ status ≠ 401 ∧
          status ≠ 403 → e.wrapped = Sentinel.errBadRequest) ∧
        (500 ≤ status → e.wrapped = Sentinel.errServer)) := by
  constructor
  · intro h2xx
    unfold Classify
    rw [if_pos h2xx]
  · intro hne
    unfold Classify
    rw [if_neg hne]
    refine ⟨_, rfl, rfl, rfl, rfl, rfl, ?_, ?_, ?_, ?_⟩
    · intro h; simp only [if_pos h]
    · rintro h
      have h429 : status ≠ 429 := by rcases h with h | h <;> omega
      simp only [if_neg h429, if_pos h]
    · rintro ⟨h4, h5, h429, h401, h403⟩
      have : ¬ (status = 401 ∨ status = 403) := by
        rintro (h | h) <;> [exact h401 h; exact h403 h]
      simp only [if_neg h429, if_neg this, if_pos (⟨h4, h5⟩ : 400 ≤ status ∧ status < 500)]
    · intro h5
      have h429 : status ≠ 429 := by omega
      have h4x : ¬ (status = 401 ∨ status = 403) := by
        rintro (h | h) <;> omega
      have hbad : ¬ (400 ≤ status ∧ status < 500) := by omega
      simp only [if_neg h429, if_neg h4x, if_neg hbad, if_pos h5]

/-- C6 (witness): at status 200 the classification is nil, and at status
429 it is an `APIError` wrapping the rate-limited sentinel. -/
theorem classify_sentinels_witness :
    Classify 200 [1] [] = none ∧
    (∃ e, Classify 429 [1] [] = some e ∧
      e.Status = 429 ∧ e.RawBody = [1] ∧
      e.Code = classifyCode [] ∧ e.Message = classifyMessage [] ∧
      ((429 : Int) = 429 → e.wrapped = Sentinel.errRateLimited) ∧
      ((429 : Int) = 401 ∨ (429 : Int) = 403 →
        e.wrapped = Sentinel.errUnauthorized) ∧
      (400 ≤ (429 : Int) ∧ (429 : Int) < 500 ∧ (429 : Int) ≠ 429 ∧
        (429 : Int) ≠ 401 ∧ (429 : Int) ≠ 403 →
        e.wrapped = Sentinel.errBadRequest) ∧
      (500 ≤ (429 : Int) → e.wrapped = Sentinel.errServer)) :=
  ⟨(classify_sentinels 200 [1] []).1 (by decide),
   (classify_sentinels 429 [1] []).2 (by decide)⟩

/-- C10: every 1xx and 3xx status (outside 2xx, below 400, not 429) is
classified as an error wrapping the unknown-error sentinel, preserving the
status code and the raw body — never as a success. -/
theorem classify_1xx_3xx (status : Int) (body : List Nat)
    (parsed : ParsedBody) (hne : ¬ (200 ≤ status ∧ status < 300))
    (hlt : status < 400) (h429 : status ≠ 429) :
    ∃ e, Classify status body parsed = some e ∧
      e.wrapped = Sentinel.errUnknown ∧ e.Status = status ∧
      e.RawBody = body := by
  unfold Classify
  rw [if_neg hne]
  have h4x : ¬ (status = 401 ∨ status = 403) := by rintro (h | h) <;> omega
  have hbad : ¬ (400 ≤ status ∧ status < 500) := by omega
  have h5 : ¬ (500 ≤ status) := by omega
  simp only [if_neg h429, if_neg h4x, if_neg hbad, if_neg h5]
  exact ⟨_, rfl, rfl, rfl, rfl⟩

/-- C10 (witness): a 302 redirect is classified as an unknown-sentinel
error carrying its status and body. -/
theorem classify_1xx_3xx_witness :
    ∃ e, Classify 302 [7] [] = some e ∧
      e.wrapped = Sentinel.errUnknown ∧ e.Status = 302 ∧ e.RawBody = [7] :=
  classify_1xx_3xx 302 [7] [] (by decide) (by decide) (by decide)

end Types

namespace Transport

/-- Lemma: `resetBody` only touches the body reader: method, path and the replay
source are untouched. -/
theorem resetBody_fields (r : Request) :
    (resetBody r).method = r.method ∧ (resetBody r).urlPath = r.urlPath ∧
    (resetBody r).getBody = r.getBody := by
  rcases r with ⟨m, u, b, g⟩
  cases g <;> exact ⟨rfl, rfl, rfl⟩

/-- Lemma: `ensureReplayableBody` only touches the body fields: method and path
are untouched. -/
theorem ensureReplayableBody_fields (r : Request) :
    (ensureReplayableBody r).method = r.method ∧
    (ensureReplayableBody r).urlPath = r.urlPath := by
  rcases r with ⟨m, u, b, g⟩
  cases b <;> cases g <;> exact ⟨rfl, rfl⟩

/-- When the server's stream fits a positive cap (or the cap is off), the
size check of the retry loop does not fire. -/
theorem cap_not_exceeded {maxBody : Int} {raw : List Nat}
    (h : 0 < maxBody → (raw.length : Int) ≤ maxBody) :
    ¬ (0 < maxBody ∧ maxBody < ((wrappedBodyRead maxBody raw).length : Int)) := by
  rintro ⟨hpos, hlt⟩
  have hr := h hpos
  unfold wrappedBodyRead at hlt
  rw [List.length_take] at hlt
  have hmin : min (maxBody + 1).toNat raw.length ≤ raw.length :=
    Nat.min_le_right _ _
  omega

/-- One attempt ending in a transport error with no retry available:
Internal-kind error, single attempt. -/
theorem doJSONAux_doErr_terminal (p : RetryPolicy) (maxBody : Int)
    (server : Nat → DoOutcome) (fuel attempts : Nat) (req : Request)
    (hs : server attempts = DoOutcome.doErr)
    (hterm : isIdempotent (resetBody req).method = false ∨
      p.MaxRetries ≤ (attempts : Int)) :
    doJSONAux p maxBody server (fuel + 1) attempts req =
      (RetryOutcome.err (WithSource ErrKind.internal ErrSrc.srcDo),
       [(resetBody req).body]) := by
  unfold doJSONAux
  rw [hs]
  simp only []
  rw [if_pos hterm]

/-- One attempt whose (limit-wrapped) body exceeds a positive cap: the
distinguished body-too-large Internal error, single attempt, no retry. -/
theorem doJSONAux_too_large (p : RetryPolicy) (maxBody : Int)
    (server : Nat → DoOutcome) (fuel attempts : Nat) (req : Request)
    (status : Int) (raw : List Nat)
    (hs : server attempts = DoOutcome.doResp status raw)
    (hcap : 0 < maxBody ∧ maxBody < ((wrappedBodyRead maxBody raw).length : Int)) :
    doJSONAux p maxBody server (fuel + 1) attempts req =
      (RetryOutcome.err (WithSource ErrKind.internal ErrSrc.srcBodyTooLarge),
       [(resetBody req).body]) := by
  unfold doJSONAux
  rw [hs]
  simp only []
  rw [if_pos hcap]

/-- One attempt answered 2xx within the cap: the read bytes come back. -/
theorem doJSONAux_ok (p : RetryPolicy) (maxBody : Int)
    (server : Nat → DoOutcome) (fuel attempts : Nat) (req : Request)
    (status : Int) (raw : List Nat)
    (hs : server attempts = DoOutcome.doResp status raw)
    (hcap : ¬ (0 < maxBody ∧ maxBody < ((wrappedBodyRead maxBody raw).length : Int)))
    (h2xx : 200 ≤ status ∧ status ≤ 299) :
    doJSONAux p maxBody server (fuel + 1) attempts req =
      (RetryOutcome.ok (wrappedBodyRead maxBody raw),
       [(resetBody req).body]) := by
  unfold doJSONAux
  rw [hs]
  simp only []
  rw [if_neg hcap, if_pos h2xx]

/-- One attempt answered non-2xx with no retry available: the structured
Status error, single attempt. -/
theorem doJSONAux_status_terminal (p : RetryPolicy) (maxBody : Int)
    (server : Nat → DoOutcome) (fuel attempts : Nat) (req : Request)
    (status : Int) (raw : List Nat)
    (hs : server attempts = DoOutcome.doResp status raw)
    (hcap : ¬ (0 < maxBody ∧ maxBody < ((wrappedBodyRead maxBody raw).length : Int)))
    (h2xx : ¬ (200 ≤ status ∧ status ≤ 299))
    (hterm : isIdempotent (resetBody req).method = false ∨
      p.MaxRetries ≤ (attempts : Int) ∨ shouldRetryStatus status = false) :
    doJSONAux p maxBody server (fuel + 1) attempts req =
      (RetryOutcome.err (StatusErr status (resetBody req).method
         (resetBody req).urlPath (bodyPreview (wrappedBodyRead maxBody raw))),
       [(resetBody req).body]) := by
  unfold doJSONAux
  rw [hs]
  simp only []
  rw [if_neg hcap, if_neg h2xx, if_pos hterm]

/-- One attempt answered a retryable non-2xx status with retries left on an
idempotent method: the loop recurses with the attempt counter bumped. -/
theorem doJSONAux_status_retry (p : RetryPolicy) (maxBody : Int)
    (server : Nat → DoOutcome) (fuel attempts : Nat) (req : Request)
    (status : Int) (raw : List Nat)
    (hs : server attempts = DoOutcome.doResp status raw)
    (hcap : ¬ (0 < maxBody ∧ maxBody < ((wrappedBodyRead maxBody raw).length : Int)))
    (h2xx : ¬ (200 ≤ status ∧ status ≤ 299))
    (hidem : isIdempotent (resetBody req).method = true)
    (hatt : (attempts : Int) < p.MaxRetries)
    (hretry : shouldRetryStatus status = true) :
    doJSONAux p maxBody server (fuel + 1) attempts req =
      ((doJSONAux p maxBody server fuel (attempts + 1) (resetBody req)).1,
       (resetBody req).body ::
         (doJSONAux p maxBody server fuel (attempts + 1) (resetBody req)).2) := by
  have hno : ¬ (isIdempotent (resetBody req).method = false ∨
      p.MaxRetries ≤ (attempts : Int) ∨ shouldRetryStatus status = false) := by
    rintro (h | h | h)
    · rw [hidem] at h; exact Bool.noConfusion h
    · omega
    · rw [hretry] at h; exact Bool.noConfusion h
  rw [doJSONAux.eq_2]
  rw [hs]
  simp only []
  rw [if_neg hcap, if_neg h2xx, if_neg hno]

/-- C1: `isIdempotent` holds exactly for GET, HEAD, OPTIONS, PUT and
DELETE; consequently a POST request whose first attempt fails — with a
transport error or with a retryable status such as 500 — is never retried:
`doJSONWithRetry` makes exactly 1 attempt and returns a terminal error. -/
theorem isIdempotent_spec :
    (∀ m : String, isIdempotent m = true ↔
      (m = "GET" ∨ m = "HEAD" ∨ m = "OPTIONS" ∨ m = "PUT" ∨ m = "DELETE")) ∧
    (∀ (p : RetryPolicy) (maxBody : Int) (server : Nat → DoOutcome)
        (req : Request) (raw : List Nat),
      req.method = "POST" →
      (server 0 = DoOutcome.doErr ∨ server 0 = DoOutcome.doResp 500 raw) →
      (∃ e, (doJSONWithRetry p maxBody server req).1 = RetryOutcome.err e) ∧
      (doJSONWithRetry p maxBody server req).2.length = 1) := by
  constructor
  · intro m
    simp only [isIdempotent, Bool.or_eq_true, beq_iff_eq]
    tauto
  · intro p maxBody server req raw hmeth hfirst
    have hm : (resetBody (ensureReplayableBody req)).method = "POST" := by
      rw [(resetBody_fields _).1, (ensureReplayableBody_fields _).1, hmeth]
    have hni : isIdempotent (resetBody (ensureReplayableBody req)).method
        = false := by rw [hm]; rfl
    unfold doJSONWithRetry
    rcases hfirst with hs | hs
    · rw [doJSONAux_doErr_terminal p maxBody server _ 0 _ hs (Or.inl hni)]
      exact ⟨⟨_, rfl⟩, rfl⟩
    · by_cases hcap :
        0 < maxBody ∧ maxBody < ((wrappedBodyRead maxBody raw).length : Int)
      · rw [doJSONAux_too_large p maxBody server _ 0 _ 500 raw hs hcap]
        exact ⟨⟨_, rfl⟩, rfl⟩
      · rw [doJSONAux_status_terminal p maxBody server _ 0 _ 500 raw hs hcap
          (by omega) (Or.inl hni)]
        exact ⟨⟨_, rfl⟩, rfl⟩

/-- C1 (witness): a POST whose sole attempt yields a transport error makes
exactly one attempt and fails. -/
theorem isIdempotent_spec_witness :
    (∃ e, (doJSONWithRetry ⟨2, 1, 1⟩ 0 (fun _ => DoOutcome.doErr)
      ⟨"POST", "/x", none, none⟩).1 = RetryOutcome.err e) ∧
    (doJSONWithRetry ⟨2, 1, 1⟩ 0 (fun _ => DoOutcome.doErr)
      ⟨"POST", "/x", none, none⟩).2.length = 1 :=
  isIdempotent_spec.2 ⟨2, 1, 1⟩ 0 (fun _ => DoOutcome.doErr)
    ⟨"POST", "/x", none, none⟩ [] rfl (Or.inl rfl)

/-- Against a server that answers every attempt with status 500 within the
cap, an idempotent request exhausts its budget: starting at any attempt
count, when the remaining iterations `fuel` satisfy
`attempts + fuel = MaxRetries + 1`, the loop performs exactly `fuel`
further attempts and ends in the Status error of the final attempt
(`attempts = MaxRetries`). -/
theorem doJSONAux_always_500 (p : RetryPolicy) (maxBody : Int)
    (server : Nat → DoOutcome) (raw : Nat → List Nat)
    (hs : ∀ n, server n = DoOutcome.doResp 500 (raw n))
    (hcap : ∀ n, 0 < maxBody → (((raw n).length : Int) ≤ maxBody)) :
    ∀ (fuel attempts : Nat) (req : Request),
      isIdempotent req.method = true →
      1 ≤ fuel →
      (attempts : Int) + (fuel : Int) = p.MaxRetries + 1 →
      doJSONAux p maxBody server fuel attempts req =
        (RetryOutcome.err (StatusErr 500 req.method req.urlPath
          (bodyPreview (wrappedBodyRead maxBody (raw p.MaxRetries.toNat)))),
         (doJSONAux p maxBody server fuel attempts req).2) ∧
      (doJSONAux p maxBody server fuel attempts req).2.length = fuel := by
  intro fuel
  induction fuel with
  | zero => intro attempts req _ hf1 _; omega
  | succ f ih =>
    intro attempts req hidem _ hinv
    have hidem' : isIdempotent (resetBody req).method = true := by
      rw [(resetBody_fields req).1]; exact hidem
    have hcap' : ¬ (0 < maxBody ∧
        maxBody < ((wrappedBodyRead maxBody (raw attempts)).length : Int)) :=
      cap_not_exceeded (hcap attempts)
    have h2xx : ¬ ((200 : Int) ≤ 500 ∧ (500 : Int) ≤ 299) := by omega
    by_cases hlast : p.MaxRetries ≤ (attempts : Int)
    · have hf0 : f = 0 := by omega
      have hattM : p.MaxRetries.toNat = attempts := by omega
      subst hf0
      rw [doJSONAux_status_terminal p maxBody server 0 attempts req 500
        (raw attempts) (hs attempts) hcap' h2xx (Or.inr (Or.inl hlast))]
      rw [(resetBody_fields req).1, (resetBody_fields req).2.1, hattM]
      exact ⟨rfl, rfl⟩
    · have hlt : (attempts : Int) < p.MaxRetries := by omega
      rw [doJSONAux_status_retry p maxBody server f attempts req 500
        (raw attempts) (hs attempts) hcap' h2xx hidem' hlt rfl]
      have hmeth : (resetBody req).method = req.method := (resetBody_fields req).1
      have hpath : (resetBody req).urlPath = req.urlPath := (resetBody_fields req).2.1
      obtain ⟨ih1, ih2⟩ := ih (attempts + 1) (resetBody req)
        (by rw [hmeth]; exact hidem) (by push_cast at hinv; omega)
        (by push_cast; push_cast at hinv; omega)
      constructor
      · rw [Prod.ext_iff] at ih1 ⊢
        obtain ⟨ih1a, _⟩ := ih1
        refine ⟨?_, rfl⟩
        simp only []
        rw [ih1a, hmeth, hpath]
      · simp only [List.length_cons, ih2]

/-- C2: with `MaxRetries = 2`, a GET request against a server answering
500 (within the body cap) on every attempt performs exactly 3 attempts
(1 initial + 2 retries) and returns a terminal Status-kind error carrying
status 500, the request method, the request path, and the body-preview
message of the final response. -/
theorem get_500_three_attempts (p : RetryPolicy) (maxBody : Int)
    (server : Nat → DoOutcome) (raw : Nat → List Nat) (req : Request)
    (hp : p.MaxRetries = 2) (hmeth : req.method = "GET")
    (hs : ∀ n, server n = DoOutcome.doResp 500 (raw n))
    (hcap : ∀ n, 0 < maxBody → (((raw n).length : Int) ≤ maxBody)) :
    (doJSONWithRetry p maxBody server req).1 =
      RetryOutcome.err (StatusErr 500 req.method req.urlPath
        (bodyPreview (wrappedBodyRead maxBody (raw 2)))) ∧
    (doJSONWithRetry p maxBody server req).2.length = 3 ∧
    (StatusErr 500 req.method req.urlPath
      (bodyPreview (wrappedBodyRead maxBody (raw 2)))).kind = ErrKind.status := by
  have hidem : isIdempotent (ensureReplayableBody req).method = true := by
    rw [(ensureReplayableBody_fields req).1, hmeth]; rfl
  have hfuel : p.MaxRetries.toNat + 1 = 3 := by omega
  have hinv : ((0 : Nat) : Int) + ((p.MaxRetries.toNat + 1 : Nat) : Int)
      = p.MaxRetries + 1 := by push_cast; omega
  obtain ⟨h1, h2⟩ := doJSONAux_always_500 p maxBody server raw hs hcap
    (p.MaxRetries.toNat + 1) 0 (ensureReplayableBody req) hidem (by omega) hinv
  have hM : p.MaxRetries.toNat = 2 := by omega
  refine ⟨?_, ?_, rfl⟩
  · unfold doJSONWithRetry
    rw [Prod.ext_iff] at h1
    obtain ⟨h1a, _⟩ := h1
    rw [h1a, (ensureReplayableBody_fields req).1,
      (ensureReplayableBody_fields req).2, hM]
  · unfold doJSONWithRetry
    rw [h2, hfuel]

/-- C2 (witness): the default-like policy with `MaxRetries = 2` against a
permanent-500 server with empty bodies: three attempts, terminal Status
error. -/
theorem get_500_three_attempts_witness :
    (doJSONWithRetry ⟨2, 150000000, 2000000000⟩ 0
        (fun _ => DoOutcome.doResp 500 []) ⟨"GET", "/book", none, none⟩).1 =
      RetryOutcome.err (StatusErr 500
        (⟨"GET", "/book", none, none⟩ : Request).method
        (⟨"GET", "/book", none, none⟩ : Request).urlPath
        (bodyPreview (wrappedBodyRead 0 []))) ∧
    (doJSONWithRetry ⟨2, 150000000, 2000000000⟩ 0
        (fun _ => DoOutcome.doResp 500 []) ⟨"GET", "/book", none, none⟩).2.length
      = 3 ∧
    (StatusErr 500 (⟨"GET", "/book", none, none⟩ : Request).method
      (⟨"GET", "/book", none, none⟩ : Request).urlPath
      (bodyPreview (wrappedBodyRead 0 []))).kind = ErrKind.status :=
  get_500_three_attempts ⟨2, 150000000, 2000000000⟩ 0
    (fun _ => DoOutcome.doResp 500 []) (fun _ => [])
    ⟨"GET", "/book", none, none⟩ rfl rfl (fun _ => rfl)
    (fun _ h => by simp)

/-- Resetting installs the replay source's bytes as the current body. -/
theorem resetBody_body_of_getBody (r : Request) (bs : List Nat)
    (h : r.getBody = some bs) : (resetBody r).body = some bs := by
  rcases r with ⟨m, u, b, g⟩
  cases g
  · exact Option.noConfusion h
  · simpa [resetBody] using h

/-- C3: the request body is buffered once by `ensureReplayableBody` (which
installs the bytes as the replay source and resets the body for the first
attempt), every attempt of the loop transmits exactly those buffered bytes,
and in particular a PUT whose first attempt sees 500 and whose second
succeeds with 200 is retried exactly once with a second payload equal to
the first, byte for byte. -/
theorem body_replay (p : RetryPolicy) (maxBody : Int)
    (server : Nat → DoOutcome) (bs : List Nat) (path : String)
    (raw0 raw1 : List Nat)
    (hMR : 1 ≤ p.MaxRetries)
    (hs0 : server 0 = DoOutcome.doResp 500 raw0)
    (hs1 : server 1 = DoOutcome.doResp 200 raw1)
    (hc0 : 0 < maxBody → ((raw0.length : Int) ≤ maxBody))
    (hc1 : 0 < maxBody → ((raw1.length : Int) ≤ maxBody)) :
    ((ensureReplayableBody ⟨"PUT", path, some bs, none⟩).getBody = some bs ∧
     (ensureReplayableBody ⟨"PUT", path, some bs, none⟩).body = some bs) ∧
    (∀ (fuel attempts : Nat) (r : Request), r.getBody = some bs →
      ∀ x ∈ (doJSONAux p maxBody server fuel attempts r).2, x = some bs) ∧
    (doJSONWithRetry p maxBody server ⟨"PUT", path, some bs, none⟩ =
      (RetryOutcome.ok (wrappedBodyRead maxBody raw1),
       [some bs, some bs])) := by
  refine ⟨⟨rfl, rfl⟩, ?_, ?_⟩
  · intro fuel
    induction fuel with
    | zero => intro attempts r _ x hx; simp [doJSONAux] at hx
    | succ f ih =>
      intro attempts r hgb
      have h1 : (resetBody r).body = some bs := resetBody_body_of_getBody r bs hgb
      have h2 : (resetBody r).getBody = some bs := by
        rw [(resetBody_fields r).2.2]; exact hgb
      rw [doJSONAux.eq_2]
      cases hso : server attempts with
      | doErr =>
        simp only []
        split
        · intro x hx
          rw [List.mem_singleton] at hx
          rw [hx, h1]
        · intro x hx
          rw [List.mem_cons] at hx
          rcases hx with hx | hx
          · rw [hx, h1]
          · exact ih (attempts + 1) (resetBody r) h2 x hx
      | doResp status raw =>
        simp only []
        split
        · intro x hx
          rw [List.mem_singleton] at hx
          rw [hx, h1]
        · split
          · intro x hx
            rw [List.mem_singleton] at hx
            rw [hx, h1]
          · split
            · intro x hx
              rw [List.mem_singleton] at hx
              rw [hx, h1]
            · intro x hx
              rw [List.mem_cons] at hx
              rcases hx with hx | hx
              · rw [hx, h1]
              · exact ih (attempts + 1) (resetBody r) h2 x hx
  · unfold doJSONWithRetry
    have hens : ensureReplayableBody ⟨"PUT", path, some bs, none⟩
        = ⟨"PUT", path, some bs, some bs⟩ := rfl
    rw [hens]
    obtain ⟨k, hk⟩ : ∃ k, p.MaxRetries.toNat = k + 1 :=
      ⟨p.MaxRetries.toNat - 1, by omega⟩
    rw [hk]
    have hres : resetBody (⟨"PUT", path, some bs, some bs⟩ : Request)
        = ⟨"PUT", path, some bs, some bs⟩ := rfl
    rw [doJSONAux_status_retry p maxBody server (k + 1) 0
      ⟨"PUT", path, some bs, some bs⟩ 500 raw0 hs0 (cap_not_exceeded hc0)
      (by omega) (by rw [hres]; rfl) (by exact_mod_cast hMR) rfl]
    rw [hres]
    rw [doJSONAux_ok p maxBody server k (0 + 1)
      ⟨"PUT", path, some bs, some bs⟩ 200 raw1 hs1 (cap_not_exceeded hc1)
      (by omega)]
    rw [hres]

/-- C3 (witness): a PUT with body bytes `[1, 2]` against a server failing
once with 500 and then answering 200 is retried exactly once with an
identical payload. -/
theorem body_replay_witness :
    ((ensureReplayableBody ⟨"PUT", "/o", some [1, 2], none⟩).getBody
        = some [1, 2] ∧
     (ensureReplayableBody ⟨"PUT", "/o", some [1, 2], none⟩).body
        = some [1, 2]) ∧
    (∀ (fuel attempts : Nat) (r : Request), r.getBody = some [1, 2] →
      ∀ x ∈ (doJSONAux ⟨1, 1, 1⟩ 0
        (fun n => if n = 0 then DoOutcome.doResp 500 []
                  else DoOutcome.doResp 200 [66]) fuel attempts r).2,
        x = some [1, 2]) ∧
    (doJSONWithRetry ⟨1, 1, 1⟩ 0
        (fun n => if n = 0 then DoOutcome.doResp 500 []
                  else DoOutcome.doResp 200 [66])
        ⟨"PUT", "/o", some [1, 2], none⟩ =
      (RetryOutcome.ok (wrappedBodyRead 0 [66]), [some [1, 2], some [1, 2]])) :=
  body_replay ⟨1, 1, 1⟩ 0
    (fun n => if n = 0 then DoOutcome.doResp 500 []
              else DoOutcome.doResp 200 [66])
    [1, 2] "/o" [] [66] (by decide) rfl rfl
    (fun h => by omega) (fun h => by omega)

/-- C4: with a positive cap, the limit-wrapped body reader yields at most
`MaxBodyBytes + 1` bytes no matter how much the server sends, and when the
server's stream exceeds the cap on the first attempt, `doJSONWithRetry`
returns the distinguished body-too-large error wrapped with kind Internal
immediately, after exactly one attempt. -/
theorem body_cap_enforced (maxBody : Int) (raw : List Nat) (p : RetryPolicy)
    (server : Nat → DoOutcome) (req : Request) (status : Int)
    (hpos : 0 < maxBody) (hs : server 0 = DoOutcome.doResp status raw)
    (hbig : maxBody < (raw.length : Int)) :
    (∀ stream : List Nat,
      ((wrappedBodyRead maxBody stream).length : Int) ≤ maxBody + 1) ∧
    (doJSONWithRetry p maxBody server req).1 =
      RetryOutcome.err (WithSource ErrKind.internal ErrSrc.srcBodyTooLarge) ∧
    (doJSONWithRetry p maxBody server req).2.length = 1 := by
  have hlen : ∀ stream : List Nat,
      (wrappedBodyRead maxBody stream).length
        = min (maxBody + 1).toNat stream.length := by
    intro stream
    unfold wrappedBodyRead
    rw [List.length_take]
  refine ⟨?_, ?_, ?_⟩
  · intro stream
    rw [hlen]
    omega
  · unfold doJSONWithRetry
    rw [doJSONAux_too_large p maxBody server p.MaxRetries.toNat 0 _ status raw
      hs ⟨hpos, by rw [hlen]; omega⟩]
  · unfold doJSONWithRetry
    rw [doJSONAux_too_large p maxBody server p.MaxRetries.toNat 0 _ status raw
      hs ⟨hpos, by rw [hlen]; omega⟩]
    rfl

/-- C4 (witness): cap 2 against a 5-byte stream: the wrapped reader yields
at most 3 bytes, and the request fails immediately with the body-too-large
Internal error after one attempt. -/
theorem body_cap_enforced_witness :
    (∀ stream : List Nat,
      ((wrappedBodyRead 2 stream).length : Int) ≤ 2 + 1) ∧
    (doJSONWithRetry ⟨2, 1, 1⟩ 2
        (fun _ => DoOutcome.doResp 200 [1, 2, 3, 4, 5])
        ⟨"GET", "/big", none, none⟩).1 =
      RetryOutcome.err (WithSource ErrKind.internal ErrSrc.srcBodyTooLarge) ∧
    (doJSONWithRetry ⟨2, 1, 1⟩ 2
        (fun _ => DoOutcome.doResp 200 [1, 2, 3, 4, 5])
        ⟨"GET", "/big", none, none⟩).2.length = 1 :=
  body_cap_enforced 2 [1, 2, 3, 4, 5] ⟨2, 1, 1⟩
    (fun _ => DoOutcome.doResp 200 [1, 2, 3, 4, 5])
    ⟨"GET", "/big", none, none⟩ 200 (by decide) rfl (by decide)

/-- Lemma: `wrap64` is the identity on values representable in a signed 64-bit
integer: such a computation does not overflow. -/
theorem wrap64_eq_self (x : Int) (h1 : -(2 ^ 63) ≤ x) (h2 : x < 2 ^ 63) :
    wrap64 x = x := by
  unfold wrap64
  have e63 : (2 : Int) ^ 63 = 9223372036854775808 := by norm_num
  have e64 : (2 : Int) ^ 64 = 18446744073709551616 := by norm_num
  rw [Int.emod_eq_of_lt (by omega) (by omega)]
  omega

/-- Closed form of the doubling loop for a positive representable
`MaxDelay` and a positive starting delay within it: the loop clamps to
`MaxDelay` as soon as some intermediate delay reaches `MaxDelay / 2`, and
otherwise doubles exactly `k` times — and every doubling it performs stays
within `int64`, so the 64-bit wrap never engages. -/
theorem backoffLoop_closed (M : Int) (hM : 0 < M) (hM63 : M < 2 ^ 63) :
    ∀ (k : Nat) (d : Int), 0 < d → d ≤ M →
      backoffLoop M d k =
        if 0 < k ∧ M / 2 ≤ d * 2 ^ (k - 1) then M else d * 2 ^ k := by
  intro k
  induction k with
  | zero =>
    intro d hd hdM
    simp [backoffLoop]
  | succ j ih =>
    intro d hd hdM
    rw [backoffLoop]
    have e63 : (2 : Int) ^ 63 = 9223372036854775808 := by norm_num
    have hj1 : j + 1 - 1 = j := by omega
    by_cases hclamp : M / 2 ≤ d
    · rw [if_pos ⟨hM, hclamp⟩]
      have hpow : (0 : Int) < 2 ^ j := pow_pos (by norm_num) j
      have hdd : d * 1 ≤ d * 2 ^ j :=
        mul_le_mul_of_nonneg_left (by omega) hd.le
      rw [mul_one] at hdd
      rw [if_pos ⟨Nat.succ_pos j, by rw [hj1]; omega⟩]
    · rw [if_neg (by tauto)]
      have hdlt : d < M / 2 := lt_of_not_le hclamp
      have hw : wrap64 (2 * d) = 2 * d :=
        wrap64_eq_self _ (by omega) (by omega)
      rw [hw, ih (2 * d) (by omega) (by omega)]
      rw [hj1]
      cases j with
      | zero =>
        rw [if_neg (by omega), if_neg (by rintro ⟨_, h⟩; rw [pow_zero, mul_one] at h; omega)]
        ring
      | succ i =>
        have hi1 : i + 1 - 1 = i := by omega
        rw [hi1]
        have hcond : (2 * d) * 2 ^ i = d * 2 ^ (i + 1) := by ring
        by_cases hc : M / 2 ≤ d * 2 ^ (i + 1)
        · rw [if_pos ⟨Nat.succ_pos i, by rw [hcond]; exact hc⟩,
            if_pos ⟨Nat.succ_pos (i + 1), hc⟩]
        · rw [if_neg (by rintro ⟨_, h⟩; rw [hcond] at h; exact hc h),
            if_neg (by rintro ⟨_, h⟩; exact hc h)]
          ring

/-- C5 (counterexample): with `BaseDelay = 3ns` and `MaxDelay = 7ns`, the
delay before retry 2 is 7, not `BaseDelay * 2^(2-1) = 6` clamped to 7: the
integer-division clamp check (`delay >= MaxDelay/2`) fires although
doubling would still fit under `MaxDelay`. -/
theorem sleepBackoff_cex :
    sleepBackoffDelay ⟨0, 3, 7⟩ 2 = 7 ∧
    min ((3 : Int) * 2 ^ ((2 : Nat) - 1)) 7 = 6 ∧
    sleepBackoffDelay ⟨0, 3, 7⟩ 2 ≠ min ((3 : Int) * 2 ^ ((2 : Nat) - 1)) 7 := by
  refine ⟨by decide, by decide, by decide⟩

/-- C5 (amended): for every attempt `n ≥ 1` and positive `BaseDelay` and
`MaxDelay` (representable in `int64`), the computed backoff delay is
`MaxDelay` as soon as `n ≥ 2` and `min(BaseDelay, MaxDelay) * 2^(n-2)`
reaches the integer half `MaxDelay / 2`, and is exactly
`min(BaseDelay, MaxDelay) * 2^(n-1)` otherwise; in every case it lies
between `BaseDelay * 2^(n-1)` clamped to `MaxDelay` and `MaxDelay`, and
the computation never overflows because the clamp check runs before each
doubling. -/
theorem sleepBackoff_closed (mr B M n : Int) (hB : 0 < B) (hM : 0 < M)
    (hM63 : M < 2 ^ 63) (hn : 1 ≤ n) :
    sleepBackoffDelay ⟨mr, B, M⟩ n =
      (if 2 ≤ n ∧ M / 2 ≤ min B M * 2 ^ (n - 2).toNat then M
       else min B M * 2 ^ (n - 1).toNat) ∧
    min (B * 2 ^ (n - 1).toNat) M ≤ sleepBackoffDelay ⟨mr, B, M⟩ n ∧
    sleepBackoffDelay ⟨mr, B, M⟩ n ≤ M := by
  have hd1 : (0 : Int) < min B M := lt_min hB hM
  have hd2 : min B M ≤ M := min_le_right B M
  have hmain : sleepBackoffDelay ⟨mr, B, M⟩ n =
      (if 2 ≤ n ∧ M / 2 ≤ min B M * 2 ^ (n - 2).toNat then M
       else min B M * 2 ^ (n - 1).toNat) := by
    unfold sleepBackoffDelay
    simp only []
    rw [if_neg (by omega : ¬ n ≤ 0), if_neg (by omega : ¬ B ≤ 0)]
    have hmin : (if 0 < M ∧ M < B then M else B) = min B M := by
      by_cases hMB : M < B
      · rw [if_pos ⟨hM, hMB⟩, min_eq_right hMB.le]
      · rw [if_neg (by tauto), min_eq_left (not_lt.mp hMB)]
    rw [hmin, backoffLoop_closed M hM hM63 (n - 1).toNat (min B M) hd1 hd2]
    have hsub : (n - 1).toNat - 1 = (n - 2).toNat := by omega
    rw [hsub]
    have hiff : (0 < (n - 1).toNat ∧ M / 2 ≤ min B M * 2 ^ (n - 2).toNat)
        ↔ (2 ≤ n ∧ M / 2 ≤ min B M * 2 ^ (n - 2).toNat) := by
      constructor
      · rintro ⟨h1, h2⟩; exact ⟨by omega, h2⟩
      · rintro ⟨h1, h2⟩; exact ⟨by omega, h2⟩
    rw [if_congr hiff rfl rfl]
    have hDle : (if 2 ≤ n ∧ M / 2 ≤ min B M * 2 ^ (n - 2).toNat
        then M else min B M * 2 ^ (n - 1).toNat) ≤ M := by
      split
      · exact le_refl M
      · rename_i hcond
        rcases Nat.eq_zero_or_pos (n - 1).toNat with hk0 | hkpos
        · rw [hk0, pow_zero, mul_one]; exact hd2
        · obtain ⟨i, hi⟩ : ∃ i, (n - 1).toNat = i + 1 :=
            ⟨(n - 1).toNat - 1, by omega⟩
          have hival : (n - 2).toNat = i := by omega
          have hc2 : ¬ (M / 2 ≤ min B M * 2 ^ i) := by
            intro h
            exact hcond ⟨by omega, by rw [hival]; exact h⟩
          have hX : min B M * 2 ^ (i + 1) = 2 * (min B M * 2 ^ i) := by ring
          rw [hi, hX]
          have := lt_of_not_le hc2
          omega
    rw [if_neg (by rintro ⟨_, hlt⟩; exact absurd hDle (not_le.mpr hlt))]
  refine ⟨hmain, ?_, ?_⟩
  · rw [hmain]
    by_cases hc : 2 ≤ n ∧ M / 2 ≤ min B M * 2 ^ (n - 2).toNat
    · rw [if_pos hc]; exact min_le_right _ M
    · rw [if_neg hc]
      rcases le_total B M with hBM | hMB
      · rw [min_eq_left hBM]
        exact min_le_left _ M
      · rw [min_eq_right hMB]
        have hpow : (0 : Int) < 2 ^ (n - 1).toNat := pow_pos (by norm_num) _
        have : M * 1 ≤ M * 2 ^ (n - 1).toNat :=
          mul_le_mul_of_nonneg_left (by omega) hM.le
        rw [mul_one] at this
        exact le_trans (min_le_right _ M) this
  · rw [hmain]
    by_cases hc : 2 ≤ n ∧ M / 2 ≤ min B M * 2 ^ (n - 2).toNat
    · rw [if_pos hc]
    · rw [if_neg hc]
      rcases Nat.eq_zero_or_pos (n - 1).toNat with hk0 | hkpos
      · rw [hk0, pow_zero, mul_one]; exact hd2
      · obtain ⟨i, hi⟩ : ∃ i, (n - 1).toNat = i + 1 :=
          ⟨(n - 1).toNat - 1, by omega⟩
        have h2n : 2 ≤ n := by omega
        have hival : (n - 2).toNat = i := by omega
        have hc2 : ¬ (M / 2 ≤ min B M * 2 ^ i) := by
          intro h
          exact hc ⟨h2n, by rw [hival]; exact h⟩
        have hX : min B M * 2 ^ (i + 1) = 2 * (min B M * 2 ^ i) := by ring
        rw [hi, hX]
        have := lt_of_not_le hc2
        omega

/-- C5 (witness): at `BaseDelay = 3ns`, `MaxDelay = 7ns`, attempt 1, the
closed form applies: the delay is `3 = min(3,7) * 2^0`, within bounds. -/
theorem sleepBackoff_closed_witness :
    (sleepBackoffDelay ⟨2, 3, 7⟩ 1 =
      (if 2 ≤ (1 : Int) ∧ (7 : Int) / 2 ≤ min 3 7 * 2 ^ ((1 : Int) - 2).toNat
       then 7 else min 3 7 * 2 ^ ((1 : Int) - 1).toNat)) ∧
    min ((3 : Int) * 2 ^ ((1 : Int) - 1).toNat) 7 ≤
      sleepBackoffDelay ⟨2, 3, 7⟩ 1 ∧
    sleepBackoffDelay ⟨2, 3, 7⟩ 1 ≤ 7 :=
  sleepBackoff_closed 2 3 7 1 (by decide) (by decide)
    (by norm_num) (by decide)

end Transport

end PolyClob
